import Mathlib

/-!
Verification development for the krux display and home-page modules.

Shallow embedding of `src/krux/display.py` (text layout, QR data width,
backlight translation, mirrored-coordinate drawing primitives) and of the
`sign_psbt` workflow handler in `src/krux/pages/home.py`.

Strings are embedded as `List Char`; Python integers as `Nat`/`Int`.
-/

namespace Krux

/-- `DEFAULT_PADDING` from display.py. -/
def DEFAULT_PADDING : Nat := 10

/-- `SMALLEST_WIDTH` from display.py. -/
def SMALLEST_WIDTH : Nat := 135

/-- Characters stripped by Python `str.rstrip()` (ASCII whitespace). -/
def isPySpace (c : Char) : Bool :=
  c = ' ' || c = '\t' || c = '\n' || c = '\r' || c = '\x0b' || c = '\x0c'

/-- Python `s.rstrip()` on a character list. -/
def rstrip (l : List Char) : List Char :=
  (l.reverse.dropWhile isPySpace).reverse

/-- Python slice `t[a:b]` for `0 ≤ a, b` on a character list. -/
def pySlice (t : List Char) (a b : Nat) : List Char :=
  (t.drop a).take (b - a)

/-- Python slice `t[:k]` where `k` may be negative (counts from the end). -/
def pySliceTo (t : List Char) (k : Int) : List Char :=
  if 0 ≤ k then t.take k.toNat else t.take (t.length - (-k).toNat)

/-- Index of the first occurrence of `c` in `l` (`none` if absent). -/
def pyFindAux (c : Char) : List Char → Option Nat
  | [] => none
  | x :: xs => if x = c then some 0 else (pyFindAux c xs).map (· + 1)

/-- Python `t.find(c, start)`: first index `≥ start` holding `c`, else `-1`. -/
def pyFind (t : List Char) (c : Char) (start : Nat) : Int :=
  match pyFindAux c (t.drop start) with
  | none => -1
  | some i => ((start + i : Nat) : Int)

/-- Python `t.rfind(c, a, b)`: highest index in `[a, b)` holding `c`, else `-1`. -/
def pyRfind (t : List Char) (c : Char) (a b : Nat) : Int :=
  match pyFindAux c ((t.take b).drop a).reverse with
  | none => -1
  | some i => ((a + (((t.take b).drop a).length - 1 - i) : Nat) : Int)

/-- `Display.usable_width`: `width − 2 * DEFAULT_PADDING`. -/
def usable_width (w : Nat) : Nat := w - 2 * DEFAULT_PADDING

/-- The column budget computed at the top of `Display.to_lines`:
`usable_width // FONT_WIDTH` on screens wider than `SMALLEST_WIDTH`,
else `width // FONT_WIDTH`. -/
def columnsOf (w fw : Nat) : Nat :=
  if SMALLEST_WIDTH < w then usable_width w / fw else w / fw

/-- `Display.qr_data_width` as a function of the current display width. -/
def qr_data_width (w : Nat) : Nat :=
  if 300 < w then w / 6
  else if 200 < w then w / 5
  else w / 4

/-- `Display.set_pmu_backlight`: the translated level that is sent to
`power_manager.set_screen_brightness` for a given ordinal level. -/
def set_pmu_backlight (level : Nat) : Nat :=
  if level = 4 then 5
  else if level = 5 then 8
  else level

/-- The x-coordinate `Display.fill_rectangle` passes to `lcd.fill_rectangle`. -/
def fill_rectangle_x (flipped : Bool) (w x rw : Int) : Int :=
  if flipped then w - x - rw else x

/-- The x-coordinate `Display.outline` passes to `lcd.draw_outline`. -/
def outline_x (flipped : Bool) (w x rw : Int) : Int :=
  if flipped then (w - x - 1) - rw else x

/-- The x-coordinate `Display.draw_string` passes to `lcd.draw_string`. -/
def draw_string_x (flipped : Bool) (w x textLen fontW : Int) : Int :=
  if flipped then w - x - textLen * fontW else x

/-- The x-coordinate `Display.draw_circle` passes to `lcd.draw_circle`. -/
def draw_circle_x (flipped : Bool) (w x : Int) : Int :=
  if flipped then w - x else x

/-- The pair `(x_start, x_end)` `Display.draw_line` passes to `lcd.draw_line`. -/
def draw_line_x (flipped : Bool) (w x0 x1 : Int) : Int × Int :=
  if flipped then
    (w - (if x1 < w then x1 + 1 else x1), w - (if x0 < w then x0 + 1 else x0))
  else (x0, x1)

/-- The next line-break position used by one iteration of the `to_lines`
loop: `text.find("\n", start)`, with `-1` replaced by `len(text)` and a
found index clamped by `min(line_break, len(text))`. -/
def nextBreakAt (t : List Char) (start : Nat) : Nat :=
  if pyFind t '\n' start = -1 then t.length
  else min (pyFind t '\n' start).toNat t.length

/-- The character `text[end]` inspected when a cut falls inside a segment
(always in range there, since `start + columns < nextBreakAt ≤ len`). -/
def midChar (t : List Char) (c start : Nat) : Char := t.getD (start + c) ' '

/-- The candidate cut after the mid-word adjustment of `to_lines`: the
backward space search `text.rfind(" ", start, end)` when `text[end]` is
neither a space nor a break, else `end` itself. -/
def wrapE2 (t : List Char) (c start : Nat) : Int :=
  if midChar t c start ≠ ' ' ∧ midChar t c start ≠ '\n' then
    pyRfind t ' ' start (start + c)
  else ((start + c : Nat) : Int)

/-- The final cut position of a wrapped line: the adjusted cut, or a forced
word break at `start + columns` when no space was found. -/
def wrapEnd (t : List Char) (c start : Nat) : Nat :=
  if wrapE2 t c start = -1 ∨ wrapE2 t c start < (start : Int) then start + c
  else (wrapE2 t c start).toNat

/-- `jump_space`: 1 when the cut landed on a space (which is then skipped),
0 when a word was force-broken. -/
def jumpSpace (t : List Char) (e : Nat) : Nat :=
  if t.getD e ' ' = ' ' then 1 else 0

/-- The line emitted when the whole current segment fits
(`text[start:next_break].rstrip()`). -/
def segBreak (t : List Char) (start : Nat) : List Char :=
  rstrip (pySlice t start (nextBreakAt t start))

/-- The line emitted when the segment is wrapped
(`text[start:end].rstrip()` with the adjusted cut `end`). -/
def segWrap (t : List Char) (c start : Nat) : List Char :=
  rstrip (pySlice t start (wrapEnd t c start))

/-- The `while start < len(text) and line_count < max_lines` loop of
`Display.to_lines`, with explicit fuel (the loop advances `start` by at
least one per iteration whenever `columns ≥ 1`, so `len(text) + 1` fuel is
never exhausted). Returns `(lines, start, line_count)` at exit. -/
def toLinesLoop (t : List Char) (c M : Nat) :
    Nat → Nat → Nat → List (List Char) → List (List Char) × Nat × Nat
  | 0, start, cnt, acc => (acc, start, cnt)
  | fuel + 1, start, cnt, acc =>
    if start < t.length ∧ cnt < M then
      if nextBreakAt t start ≤ start + c then
        toLinesLoop t c M fuel (nextBreakAt t start + 1) (cnt + 1)
          (acc ++ [segBreak t start])
      else
        toLinesLoop t c M fuel
          (wrapEnd t c start + jumpSpace t (wrapEnd t c start)) (cnt + 1)
          (acc ++ [segWrap t c start])
    else (acc, start, cnt)

/-- Python's `if not max_lines: max_lines = TOTAL_LINES`: both `None` and
`0` are falsy and are replaced by the screen's total line capacity. -/
def effMaxLines (tl : Nat) (ml : Option Nat) : Nat :=
  match ml with
  | none => tl
  | some 0 => tl
  | some (m + 1) => m + 1

/-- The fixed three-character truncation marker. -/
def ellipsis : List Char := ['.', '.', '.']

/-- `lines[-1] = lines[-1][: columns - 3] + "..."` (Python raises on an
empty list; that state is unreachable for a positive line capacity, and the
model then leaves the list unchanged). -/
def truncLast (c : Nat) (lines : List (List Char)) : List (List Char) :=
  match lines.getLast? with
  | none => lines
  | some last => lines.dropLast ++ [pySliceTo last ((c : Int) - 3) ++ ellipsis]

/-- Post-processing after the loop of `to_lines`: truncate the last line
with the ellipsis when the loop stopped at the line cap (`line_count ==
max_lines`) with content remaining (`start < len(text)`). -/
def toLinesPost (c M len : Nat) (r : List (List Char) × Nat × Nat) :
    List (List Char) :=
  if r.2.2 = M ∧ r.2.1 < len then truncLast c r.1 else r.1

/-- `Display.to_lines` on a screen of width `w` with font width `fw` and
total line capacity `tl` (`TOTAL_LINES`). -/
def to_lines (w fw tl : Nat) (text : List Char) (ml : Option Nat) :
    List (List Char) :=
  if text.length ≤ columnsOf w fw ∧ '\n' ∉ text then [text]
  else
    toLinesPost (columnsOf w fw) (effMaxLines tl ml) text.length
      (toLinesLoop text (columnsOf w fw) (effMaxLines tl ml)
        (text.length + 1) 0 0 [])

/-- Python exceptions, as far as `sign_psbt`'s handlers distinguish them:
`OSError` (the only class caught around `_load_file`) versus any other
`Exception` subclass (tagged by an opaque number). -/
inductive Exc where
  | osError : Exc
  | other : Nat → Exc
deriving DecidableEq

/-- The navigation signals `MENU_CONTINUE` / `MENU_EXIT` returned by page
handlers. -/
inductive MenuSig where
  | mContinue : MenuSig
  | mExit : MenuSig
deriving DecidableEq

/-- Observable events of one `Home.sign_psbt` run, recorded in order.
Each collaborator call is recorded before its outcome is consulted, so an
event in the trace means the call was attempted. -/
inductive Ev where
  | warnPrompt : Ev
  | captureTry : Ev
  | loadFileTry : Ev
  | flashLoadFailed : Ev
  | ctorCall : Ev
  | outputsCall : Ev
  | showOutput : Ev
  | signPrompt : Ev
  | signCall : Ev
  | psbtQrCall : Ev
  | serializeCall : Ev
  | displayQrCall : Ev
  | printQrCall : Ev
  | errorShown : Ev
  | saveFileCall : Ev
deriving DecidableEq

/-- One run's worth of collaborator behaviour and user answers for
`Home.sign_psbt`: each field is what the corresponding call would return
(or the exception it would raise) if reached. -/
structure SignEnv where
  isLoaded : Bool
  isMultisig : Bool
  proceedAnswer : Bool
  captureData : Option Nat
  loadFileResult : Except Exc (Nat × Option Nat)
  ctorResult : Except Exc Unit
  outputsResult : Except Exc (List Nat)
  signAnswer : Bool
  signResult : Except Exc Unit
  psbtQrResult : Except Exc Unit
  serializeResult : Except Exc Unit
  displayQrResult : Except Exc Unit
  printQrResult : Except Exc Unit
  hasSdCard : Bool
  saveFileResult : Except Exc Unit

/-- home.py lines 392–404: the tail of the export phase — the optional save
of the serialized signed PSBT to the SD card (not guarded by any `try`). -/
def exportsTail (env : SignEnv) (acc : List Ev) : Except Exc MenuSig × List Ev :=
  if env.hasSdCard then
    match env.saveFileResult with
    | Except.error e => (Except.error e, acc ++ [Ev.saveFileCall])
    | Except.ok _ => (Except.ok MenuSig.mContinue, acc ++ [Ev.saveFileCall])
  else (Except.ok MenuSig.mContinue, acc)

/-- home.py lines 362–404: the branch taken after the user confirms the
"Sign?" prompt: `sign()`, `psbt_qr()` and `serialize()` unguarded, then one
`try` block around showing and printing the signed QR whose handler shows an
error message, then the SD save. -/
def afterSignConfirm (env : SignEnv) (acc : List Ev) : Except Exc MenuSig × List Ev :=
  match env.signResult with
  | Except.error e => (Except.error e, acc ++ [Ev.signCall])
  | Except.ok _ =>
    match env.psbtQrResult with
    | Except.error e => (Except.error e, acc ++ [Ev.signCall, Ev.psbtQrCall])
    | Except.ok _ =>
      match env.serializeResult with
      | Except.error e =>
        (Except.error e, acc ++ [Ev.signCall, Ev.psbtQrCall, Ev.serializeCall])
      | Except.ok _ =>
        let acc := acc ++ [Ev.signCall, Ev.psbtQrCall, Ev.serializeCall, Ev.displayQrCall]
        match env.displayQrResult with
        | Except.error _ => exportsTail env (acc ++ [Ev.errorShown])
        | Except.ok _ =>
          match env.printQrResult with
          | Except.error _ => exportsTail env (acc ++ [Ev.printQrCall, Ev.errorShown])
          | Except.ok _ => exportsTail env (acc ++ [Ev.printQrCall])

/-- home.py lines 342–405: once PSBT data was obtained — the `PSBTSigner`
constructor and `outputs()` unguarded, one screen per output summary, the
"Sign?" prompt, and on decline an immediate `MENU_CONTINUE`. -/
def afterData (env : SignEnv) (acc : List Ev) : Except Exc MenuSig × List Ev :=
  match env.ctorResult with
  | Except.error e => (Except.error e, acc ++ [Ev.ctorCall])
  | Except.ok _ =>
    match env.outputsResult with
    | Except.error e => (Except.error e, acc ++ [Ev.ctorCall, Ev.outputsCall])
    | Except.ok msgs =>
      let acc := acc ++ [Ev.ctorCall, Ev.outputsCall]
        ++ msgs.map (fun _ => Ev.showOutput) ++ [Ev.signPrompt]
      if env.signAnswer then afterSignConfirm env acc
      else (Except.ok MenuSig.mContinue, acc)

/-- home.py lines 325–340: the acquisition fallback — camera capture, then
the SD file (`OSError` caught and treated as absence), then the failure
flash when both yield nothing. -/
def acquire (env : SignEnv) (acc : List Ev) : Except Exc MenuSig × List Ev :=
  match env.captureData with
  | some _ => afterData env acc
  | none =>
    let acc := acc ++ [Ev.loadFileTry]
    match env.loadFileResult with
    | Except.error Exc.osError => (Except.ok MenuSig.mContinue, acc ++ [Ev.flashLoadFailed])
    | Except.error e => (Except.error e, acc)
    | Except.ok (_, none) => (Except.ok MenuSig.mContinue, acc ++ [Ev.flashLoadFailed])
    | Except.ok (_, some _) => afterData env acc

/-- `Home.sign_psbt` (home.py lines 310–405): result (`MENU_CONTINUE` or an
uncaught exception) together with the trace of events of the run. -/
def sign_psbt (env : SignEnv) : Except Exc MenuSig × List Ev :=
  if !env.isLoaded && env.isMultisig then
    if !env.proceedAnswer then (Except.ok MenuSig.mContinue, [Ev.warnPrompt])
    else acquire env [Ev.warnPrompt, Ev.captureTry]
  else acquire env [Ev.captureTry]

/-- Run of `sign_psbt` in which the `PSBTSigner` constructor raises (fields in
declaration order of `SignEnv`; wallet loaded, camera yields data). -/
def envC1 : SignEnv :=
  ⟨true, false, true, some 0, Except.ok (0, none), Except.error (Exc.other 7),
    Except.ok [], true, Except.ok (), Except.ok (), Except.ok (),
    Except.ok (), Except.ok (), true, Except.ok ()⟩

/-- Run of `sign_psbt` in which everything succeeds up to signing and then
`display_qr_codes` raises; SD card absent. -/
def envC1W : SignEnv :=
  ⟨true, false, true, some 0, Except.ok (0, none), Except.ok (),
    Except.ok [], true, Except.ok (), Except.ok (), Except.ok (),
    Except.error (Exc.other 1), Except.ok (), false, Except.ok ()⟩

/-- Run of `sign_psbt` in which everything succeeds up to signing and then
`display_qr_codes` raises; SD card present, save succeeds. -/
def envC3 : SignEnv :=
  ⟨true, false, true, some 0, Except.ok (0, none), Except.ok (),
    Except.ok [0], true, Except.ok (), Except.ok (), Except.ok (),
    Except.error (Exc.other 3), Except.ok (), true, Except.ok ()⟩

/-- Run of `sign_psbt` identical to `envC3` (display raises, SD present)
used to witness the amended C3 statement. -/
def envC3W : SignEnv :=
  ⟨true, false, true, some 1, Except.ok (0, none), Except.ok (),
    Except.ok [0, 1], true, Except.ok (), Except.ok (), Except.ok (),
    Except.error (Exc.other 4), Except.ok (), true, Except.ok ()⟩

/-- Run of `sign_psbt` in which the user declines the final "Sign?" prompt. -/
def envC9 : SignEnv :=
  ⟨true, false, true, some 0, Except.ok (0, none), Except.ok (),
    Except.ok [0], false, Except.ok (), Except.ok (), Except.ok (),
    Except.ok (), Except.ok (), true, Except.ok ()⟩

end Krux

open Krux

/-- C2 counterexample: at brightness level 0 the code sends level 0 to the
power manager, not the level 1 required by the claimed lookup. -/
theorem c2_counterexample : set_pmu_backlight 0 = 0 ∧ (0 : Nat) ≠ 1 := by
  constructor
  · rfl
  · decide

/-- C2 (amended): `set_pmu_backlight` sends the level unchanged for levels
0–3 and remaps 4 to 5 and 5 to 8; the lookup realised by the code is
`{0:0, 1:1, 2:2, 3:3, 4:5, 5:8}`. -/
theorem c2_amended :
    set_pmu_backlight 0 = 0 ∧ set_pmu_backlight 1 = 1 ∧
    set_pmu_backlight 2 = 2 ∧ set_pmu_backlight 3 = 3 ∧
    set_pmu_backlight 4 = 5 ∧ set_pmu_backlight 5 = 8 := by
  refine ⟨rfl, rfl, rfl, rfl, rfl, rfl⟩

/-- C8 counterexample: at display width 200 the code returns `200 // 4 = 50`,
while the claim (1/5 density for widths 200–300 inclusive) requires
`200 // 5 = 40`. -/
theorem c8_counterexample :
    qr_data_width 200 = 50 ∧ 200 / 5 = 40 ∧ (50 : Nat) ≠ 40 := by
  refine ⟨rfl, rfl, by decide⟩

/-- C8 (amended): `qr_data_width` returns `w // 6` for widths strictly above
300, `w // 5` for widths strictly above 200 and at most 300, and `w // 4`
for widths of at most 200. -/
theorem c8_amended (w : Nat) :
    (300 < w → qr_data_width w = w / 6) ∧
    (200 < w ∧ w ≤ 300 → qr_data_width w = w / 5) ∧
    (w ≤ 200 → qr_data_width w = w / 4) := by
  refine ⟨fun h => ?_, fun h => ?_, fun h => ?_⟩
  · simp [qr_data_width, h]
  · have h1 : ¬ (300 < w) := by omega
    simp [qr_data_width, h1, h.1]
  · have h1 : ¬ (300 < w) := by omega
    have h2 : ¬ (200 < w) := by omega
    simp [qr_data_width, h1, h2]

/-- C7 counterexample: `Display.outline` under mirroring subtracts an extra
pixel, so at `(width, x, w) = (100, 10, 20)` it delegates at x-position 69,
not at the position 70 = `width − x − w` demanded by the uniform transform
of the claim (and used by `fill_rectangle`). -/
theorem c7_counterexample :
    outline_x true 100 10 20 = 69 ∧ (100 : Int) - 10 - 20 = 70 ∧
    outline_x true 100 10 20 ≠ outline_x false 100 (100 - 10 - 20) 20 := by
  refine ⟨by decide, by decide, by decide⟩

/-- C7 (amended): under mirroring, `fill_rectangle` delegates at
`width − x − w` (so it coincides with drawing at `(width − x − w, y, w, h)`
unmirrored) and `draw_string` at `width − x − len·fontwidth`, but the
transform is not uniform across primitives: `outline` delegates at
`width − x − w − 1`, `draw_circle` at `width − x` (no extent), and
`draw_line` reflects each endpoint `x` with `x < width` to `width − x − 1`. -/
theorem c7_amended (w x rw textLen fontW x0 x1 : Int) :
    fill_rectangle_x true w x rw = fill_rectangle_x false w (w - x - rw) rw ∧
    fill_rectangle_x true w x rw = w - x - rw ∧
    draw_string_x true w x textLen fontW = w - x - textLen * fontW ∧
    outline_x true w x rw = w - x - rw - 1 ∧
    draw_circle_x true w x = w - x ∧
    (x0 < w → x1 < w → draw_line_x true w x0 x1 = (w - x1 - 1, w - x0 - 1)) := by
  refine ⟨?_, ?_, ?_, ?_, ?_, fun h0 h1 => ?_⟩
  · simp [fill_rectangle_x]
  · simp [fill_rectangle_x]
  · simp [draw_string_x]
  · simp [outline_x]; ring
  · simp [draw_circle_x]
  · simp [draw_line_x, h0, h1]; constructor <;> ring

/-- Witness for `c7_amended` at concrete coordinates. -/
theorem c7_witness :
    draw_line_x true 100 10 30 = (100 - 30 - 1, 100 - 10 - 1) :=
  (c7_amended 100 10 20 4 8 10 30).2.2.2.2.2 (by decide) (by decide)

/-- Witness for `c8_amended` at concrete widths 350, 250 and 150. -/
theorem c8_witness :
    qr_data_width 350 = 350 / 6 ∧ qr_data_width 250 = 250 / 5 ∧
    qr_data_width 150 = 150 / 4 :=
  ⟨(c8_amended 350).1 (by decide), (c8_amended 250).2.1 (by decide),
    (c8_amended 150).2.2 (by decide)⟩

/-- The trace of the export tail is the incoming trace plus the save event
when an SD card is present (the event is recorded even when the save raises). -/
theorem exportsTail_snd (env : SignEnv) (acc : List Ev) :
    (exportsTail env acc).2 =
      acc ++ (if env.hasSdCard = true then [Ev.saveFileCall] else []) := by
  unfold exportsTail
  by_cases h : env.hasSdCard = true
  · cases hs : env.saveFileResult <;> simp [h, hs]
  · simp [h]

/-- If the SD save does not raise (or no SD card is present), the export tail
returns `MENU_CONTINUE`. -/
theorem exportsTail_fst (env : SignEnv) (acc : List Ev)
    (hsave : env.hasSdCard = true → env.saveFileResult = Except.ok ()) :
    (exportsTail env acc).1 = Except.ok MenuSig.mContinue := by
  unfold exportsTail
  by_cases h : env.hasSdCard = true
  · simp [h, hsave h]
  · simp [h]

/-- Shape of the post-confirmation branch when `display_qr_codes` raises:
the error handler fires (no print attempt) and the run proceeds to the
export tail. -/
theorem afterSignConfirm_disp_err (env : SignEnv) (acc : List Ev) (e : Exc)
    (hsign : env.signResult = Except.ok ())
    (hq : env.psbtQrResult = Except.ok ())
    (hser : env.serializeResult = Except.ok ())
    (hd : env.displayQrResult = Except.error e) :
    afterSignConfirm env acc = exportsTail env
      (acc ++ [Ev.signCall, Ev.psbtQrCall, Ev.serializeCall, Ev.displayQrCall,
        Ev.errorShown]) := by
  simp [afterSignConfirm, hsign, hq, hser, hd]

/-- Shape of the post-confirmation branch when the display succeeds and the
print raises: the error handler fires and the run proceeds to the export
tail. -/
theorem afterSignConfirm_print_err (env : SignEnv) (acc : List Ev) (e : Exc)
    (hsign : env.signResult = Except.ok ())
    (hq : env.psbtQrResult = Except.ok ())
    (hser : env.serializeResult = Except.ok ())
    (hd : env.displayQrResult = Except.ok ())
    (hp : env.printQrResult = Except.error e) :
    afterSignConfirm env acc = exportsTail env
      (acc ++ [Ev.signCall, Ev.psbtQrCall, Ev.serializeCall, Ev.displayQrCall,
        Ev.printQrCall, Ev.errorShown]) := by
  simp [afterSignConfirm, hsign, hq, hser, hd, hp]

/-- When the gate passes and some acquisition source yields data, `sign_psbt`
reaches `afterData`, having so far recorded only pre-acquisition events. -/
theorem sign_psbt_to_afterData (env : SignEnv) (d f : Nat)
    (hgate : env.isLoaded = false → env.isMultisig = true →
      env.proceedAnswer = true)
    (hdata : env.captureData = some d ∨
      (env.captureData = none ∧ env.loadFileResult = Except.ok (f, some d))) :
    ∃ acc : List Ev, sign_psbt env = afterData env acc ∧
      ∀ x ∈ acc, x = Ev.warnPrompt ∨ x = Ev.captureTry ∨ x = Ev.loadFileTry := by
  have hacq : ∀ acc0 : List Ev, acquire env acc0 = afterData env acc0 ∨
      acquire env acc0 = afterData env (acc0 ++ [Ev.loadFileTry]) := by
    intro acc0
    rcases hdata with hcap | ⟨hcapn, hload⟩
    · left; simp [acquire, hcap]
    · right; simp [acquire, hcapn, hload]
  have hmem2 : ∀ x ∈ [Ev.captureTry, Ev.loadFileTry],
      x = Ev.warnPrompt ∨ x = Ev.captureTry ∨ x = Ev.loadFileTry := by
    intro x hx; simp at hx; rcases hx with rfl | rfl <;> simp
  have hmem3 : ∀ x ∈ [Ev.warnPrompt, Ev.captureTry, Ev.loadFileTry],
      x = Ev.warnPrompt ∨ x = Ev.captureTry ∨ x = Ev.loadFileTry := by
    intro x hx; simp at hx; rcases hx with rfl | rfl | rfl <;> simp
  cases hl : env.isLoaded with
  | false =>
    cases hm : env.isMultisig with
    | false =>
      have hs : sign_psbt env = acquire env [Ev.captureTry] := by
        simp [sign_psbt, hl, hm]
      rcases hacq [Ev.captureTry] with h | h
      · exact ⟨_, hs.trans h, by intro x hx; simp at hx; simp [hx]⟩
      · exact ⟨_, hs.trans h, hmem2⟩
    | true =>
      have hp := hgate hl hm
      have hs : sign_psbt env = acquire env [Ev.warnPrompt, Ev.captureTry] := by
        simp [sign_psbt, hl, hm, hp]
      rcases hacq [Ev.warnPrompt, Ev.captureTry] with h | h
      · refine ⟨_, hs.trans h, ?_⟩
        intro x hx; simp at hx; rcases hx with rfl | rfl <;> simp
      · exact ⟨_, hs.trans h, hmem3⟩
  | true =>
    have hs : sign_psbt env = acquire env [Ev.captureTry] := by
      simp [sign_psbt, hl]
    rcases hacq [Ev.captureTry] with h | h
    · exact ⟨_, hs.trans h, by intro x hx; simp at hx; simp [hx]⟩
    · exact ⟨_, hs.trans h, hmem2⟩

/-- Shape of `afterData` when the constructor and `outputs()` succeed and the
user declines the "Sign?" prompt: immediate `MENU_CONTINUE`. -/
theorem afterData_declined (env : SignEnv) (acc : List Ev) (msgs : List Nat)
    (hctor : env.ctorResult = Except.ok ())
    (houts : env.outputsResult = Except.ok msgs)
    (hsa : env.signAnswer = false) :
    afterData env acc = (Except.ok MenuSig.mContinue,
      acc ++ [Ev.ctorCall, Ev.outputsCall]
        ++ msgs.map (fun _ => Ev.showOutput) ++ [Ev.signPrompt]) := by
  simp [afterData, hctor, houts, hsa]

/-- Shape of `afterData` when the constructor and `outputs()` succeed and the
user confirms the "Sign?" prompt. -/
theorem afterData_to_confirm (env : SignEnv) (acc : List Ev) (msgs : List Nat)
    (hctor : env.ctorResult = Except.ok ())
    (houts : env.outputsResult = Except.ok msgs)
    (hsa : env.signAnswer = true) :
    afterData env acc = afterSignConfirm env
      (acc ++ [Ev.ctorCall, Ev.outputsCall]
        ++ msgs.map (fun _ => Ev.showOutput) ++ [Ev.signPrompt]) := by
  simp [afterData, hctor, houts, hsa]

/-- When the run reaches the confirmed-signing branch, the trace so far
contains no signing or export events. -/
theorem sign_psbt_to_confirm (env : SignEnv) (d f : Nat) (msgs : List Nat)
    (hgate : env.isLoaded = false → env.isMultisig = true →
      env.proceedAnswer = true)
    (hdata : env.captureData = some d ∨
      (env.captureData = none ∧ env.loadFileResult = Except.ok (f, some d)))
    (hctor : env.ctorResult = Except.ok ())
    (houts : env.outputsResult = Except.ok msgs)
    (hsa : env.signAnswer = true) :
    ∃ acc : List Ev, sign_psbt env = afterSignConfirm env acc ∧
      ∀ x ∈ acc, x ≠ Ev.signCall ∧ x ≠ Ev.psbtQrCall ∧ x ≠ Ev.serializeCall ∧
        x ≠ Ev.displayQrCall ∧ x ≠ Ev.printQrCall ∧ x ≠ Ev.errorShown ∧
        x ≠ Ev.saveFileCall := by
  obtain ⟨acc, heq, hchar⟩ := sign_psbt_to_afterData env d f hgate hdata
  refine ⟨acc ++ [Ev.ctorCall, Ev.outputsCall]
    ++ msgs.map (fun _ => Ev.showOutput) ++ [Ev.signPrompt],
    heq.trans (afterData_to_confirm env acc msgs hctor houts hsa), ?_⟩
  intro x hx
  rcases List.mem_append.mp hx with hx | hx
  · rcases List.mem_append.mp hx with hx | hx
    · rcases List.mem_append.mp hx with hx | hx
      · rcases hchar x hx with rfl | rfl | rfl <;> simp
      · simp at hx; rcases hx with rfl | rfl <;> simp
    · simp at hx; rcases hx with ⟨a, -, rfl⟩; simp
  · simp at hx; subst hx; simp

/-- C1 counterexample: in `envC1` the `PSBTSigner` constructor raises, the
exception is not caught anywhere in `sign_psbt`, and the handler does not
return the Continue signal — the exception propagates out. -/
theorem c1_counterexample :
    (sign_psbt envC1).1 = Except.error (Exc.other 7) ∧
    (sign_psbt envC1).1 ≠ Except.ok MenuSig.mContinue := by
  have h : (sign_psbt envC1).1 = Except.error (Exc.other 7) := rfl
  refine ⟨h, ?_⟩
  rw [h]
  simp

/-- C1 (amended): only exceptions raised while displaying or printing the
signed-result QR code are caught inside `sign_psbt`; such an exception is
surfaced as an acknowledged on-screen error message and the handler returns
Continue (provided the subsequent SD save does not itself raise).
Exceptions from the signing engine's constructor, `outputs()`, `sign()`,
`psbt_qr()`, `serialize()` and the SD save propagate out of the handler;
an `OSError` from the SD load is caught and treated as absence of data. -/
theorem c1_amended (env : SignEnv) (e : Exc) (d f : Nat) (msgs : List Nat)
    (hgate : env.isLoaded = false → env.isMultisig = true →
      env.proceedAnswer = true)
    (hdata : env.captureData = some d ∨
      (env.captureData = none ∧ env.loadFileResult = Except.ok (f, some d)))
    (hctor : env.ctorResult = Except.ok ())
    (houts : env.outputsResult = Except.ok msgs)
    (hsa : env.signAnswer = true)
    (hsign : env.signResult = Except.ok ())
    (hq : env.psbtQrResult = Except.ok ())
    (hser : env.serializeResult = Except.ok ())
    (hdisp : env.displayQrResult = Except.error e ∨
      (env.displayQrResult = Except.ok () ∧
        env.printQrResult = Except.error e))
    (hsave : env.hasSdCard = true → env.saveFileResult = Except.ok ()) :
    (sign_psbt env).1 = Except.ok MenuSig.mContinue ∧
    Ev.errorShown ∈ (sign_psbt env).2 := by
  obtain ⟨acc, heq, -⟩ :=
    sign_psbt_to_confirm env d f msgs hgate hdata hctor houts hsa
  rw [heq]
  rcases hdisp with hd | ⟨hd, hp⟩
  · rw [afterSignConfirm_disp_err env acc e hsign hq hser hd]
    refine ⟨exportsTail_fst _ _ hsave, ?_⟩
    rw [exportsTail_snd]
    simp
  · rw [afterSignConfirm_print_err env acc e hsign hq hser hd hp]
    refine ⟨exportsTail_fst _ _ hsave, ?_⟩
    rw [exportsTail_snd]
    simp

/-- Witness for `c1_amended`: in `envC1W` the QR display raises; the run
returns Continue and shows the error message. -/
theorem c1_witness :
    (sign_psbt envC1W).1 = Except.ok MenuSig.mContinue ∧
    Ev.errorShown ∈ (sign_psbt envC1W).2 :=
  c1_amended envC1W (Exc.other 1) 0 0 [] (by decide) (Or.inl rfl) rfl rfl rfl
    rfl rfl rfl (Or.inl rfl) (fun h => Bool.noConfusion h)

/-- C3 counterexample: in `envC3` the display of the signed-result QR raises
and the printer export is then never attempted — `printQrCall` is absent
from the trace although `displayQrCall` is present. -/
theorem c3_counterexample :
    envC3.displayQrResult = Except.error (Exc.other 3) ∧
    Ev.displayQrCall ∈ (sign_psbt envC3).2 ∧
    Ev.printQrCall ∉ (sign_psbt envC3).2 := by
  have h : (sign_psbt envC3).2 =
      [Ev.captureTry, Ev.ctorCall, Ev.outputsCall, Ev.showOutput,
        Ev.signPrompt, Ev.signCall, Ev.psbtQrCall, Ev.serializeCall,
        Ev.displayQrCall, Ev.errorShown, Ev.saveFileCall] := rfl
  refine ⟨rfl, ?_, ?_⟩ <;> rw [h] <;> decide

/-- C3 (amended): after a successful signing the on-screen QR display and
the printer export share a single guard: if the QR display raises, the
printer export is skipped; the save-to-SD export is attempted regardless of
a display failure. -/
theorem c3_amended (env : SignEnv) (e : Exc) (d f : Nat) (msgs : List Nat)
    (hgate : env.isLoaded = false → env.isMultisig = true →
      env.proceedAnswer = true)
    (hdata : env.captureData = some d ∨
      (env.captureData = none ∧ env.loadFileResult = Except.ok (f, some d)))
    (hctor : env.ctorResult = Except.ok ())
    (houts : env.outputsResult = Except.ok msgs)
    (hsa : env.signAnswer = true)
    (hsign : env.signResult = Except.ok ())
    (hq : env.psbtQrResult = Except.ok ())
    (hser : env.serializeResult = Except.ok ())
    (hd : env.displayQrResult = Except.error e) :
    Ev.printQrCall ∉ (sign_psbt env).2 ∧
    (env.hasSdCard = true → Ev.saveFileCall ∈ (sign_psbt env).2) := by
  obtain ⟨acc, heq, hchar⟩ :=
    sign_psbt_to_confirm env d f msgs hgate hdata hctor houts hsa
  rw [heq, afterSignConfirm_disp_err env acc e hsign hq hser hd]
  constructor
  · rw [exportsTail_snd]
    intro hx
    rcases List.mem_append.mp hx with hx | hx
    · rcases List.mem_append.mp hx with hx | hx
      · exact (hchar _ hx).2.2.2.2.1 rfl
      · simp at hx
    · by_cases hsd : env.hasSdCard = true
      · rw [if_pos hsd] at hx; simp at hx
      · rw [if_neg hsd] at hx; simp at hx
  · intro hsd
    rw [exportsTail_snd, if_pos hsd]
    simp

/-- Witness for `c3_amended` at the concrete run `envC3W`. -/
theorem c3_witness :
    Ev.printQrCall ∉ (sign_psbt envC3W).2 ∧
    (envC3W.hasSdCard = true → Ev.saveFileCall ∈ (sign_psbt envC3W).2) :=
  c3_amended envC3W (Exc.other 4) 1 0 [0, 1] (by decide) (Or.inl rfl) rfl rfl
    rfl rfl rfl rfl rfl

/-- C9: when the run reaches the final "Sign?" prompt and the user declines,
`sign_psbt` returns the Continue signal without calling the signing engine's
`sign()` and without attempting any export (no QR display, no print, no SD
save). -/
theorem c9 (env : SignEnv) (d f : Nat) (msgs : List Nat)
    (hgate : env.isLoaded = false → env.isMultisig = true →
      env.proceedAnswer = true)
    (hdata : env.captureData = some d ∨
      (env.captureData = none ∧ env.loadFileResult = Except.ok (f, some d)))
    (hctor : env.ctorResult = Except.ok ())
    (houts : env.outputsResult = Except.ok msgs)
    (hsa : env.signAnswer = false) :
    (sign_psbt env).1 = Except.ok MenuSig.mContinue ∧
    Ev.signCall ∉ (sign_psbt env).2 ∧
    Ev.displayQrCall ∉ (sign_psbt env).2 ∧
    Ev.printQrCall ∉ (sign_psbt env).2 ∧
    Ev.saveFileCall ∉ (sign_psbt env).2 := by
  obtain ⟨acc, heq, hchar⟩ := sign_psbt_to_afterData env d f hgate hdata
  rw [heq, afterData_declined env acc msgs hctor houts hsa]
  have hmem : ∀ y : Ev, y ≠ Ev.warnPrompt → y ≠ Ev.captureTry →
      y ≠ Ev.loadFileTry → y ≠ Ev.ctorCall → y ≠ Ev.outputsCall →
      y ≠ Ev.showOutput → y ≠ Ev.signPrompt →
      y ∉ (acc ++ [Ev.ctorCall, Ev.outputsCall]
        ++ msgs.map (fun _ => Ev.showOutput) ++ [Ev.signPrompt]) := by
    intro y h1 h2 h3 h4 h5 h6 h7 hy
    rcases List.mem_append.mp hy with hy | hy
    · rcases List.mem_append.mp hy with hy | hy
      · rcases List.mem_append.mp hy with hy | hy
        · rcases hchar y hy with rfl | rfl | rfl
          · exact h1 rfl
          · exact h2 rfl
          · exact h3 rfl
        · simp at hy
          rcases hy with rfl | rfl
          · exact h4 rfl
          · exact h5 rfl
      · simp at hy
        rcases hy with ⟨a, -, rfl⟩
        exact h6 rfl
    · simp at hy
      exact h7 hy
  exact ⟨rfl, hmem _ (by simp) (by simp) (by simp) (by simp) (by simp)
      (by simp) (by simp),
    hmem _ (by simp) (by simp) (by simp) (by simp) (by simp) (by simp)
      (by simp),
    hmem _ (by simp) (by simp) (by simp) (by simp) (by simp) (by simp)
      (by simp),
    hmem _ (by simp) (by simp) (by simp) (by simp) (by simp) (by simp)
      (by simp)⟩

/-- Witness for `c9` at the concrete run `envC9` (user declines "Sign?"). -/
theorem c9_witness :
    (sign_psbt envC9).1 = Except.ok MenuSig.mContinue ∧
    Ev.signCall ∉ (sign_psbt envC9).2 ∧
    Ev.displayQrCall ∉ (sign_psbt envC9).2 ∧
    Ev.printQrCall ∉ (sign_psbt envC9).2 ∧
    Ev.saveFileCall ∉ (sign_psbt envC9).2 :=
  c9 envC9 0 0 [0] (by decide) (Or.inl rfl) rfl rfl rfl

/-- `pyFindAux` returns `none` on a list avoiding the sought character. -/
theorem pyFindAux_eq_none (ch : Char) (l : List Char) (h : ∀ x ∈ l, x ≠ ch) :
    pyFindAux ch l = none := by
  induction l with
  | nil => rfl
  | cons x xs ih =>
    rw [pyFindAux, if_neg (h x (by simp)), ih (fun y hy => h y (by simp [hy]))]
    rfl

/-- An index returned by `pyFindAux` is in range. -/
theorem pyFindAux_lt (ch : Char) (l : List Char) (i : Nat)
    (h : pyFindAux ch l = some i) : i < l.length := by
  induction l generalizing i with
  | nil => simp [pyFindAux] at h
  | cons x xs ih =>
    rw [pyFindAux] at h
    by_cases hx : x = ch
    · rw [if_pos hx] at h
      cases h
      simp
    · rw [if_neg hx] at h
      cases ho : pyFindAux ch xs with
      | none => rw [ho] at h; simp at h
      | some j =>
        rw [ho] at h
        simp at h
        have := ih j ho
        simp
        omega

/-- `find` misses a character absent from the string. -/
theorem pyFind_eq_neg_one (t : List Char) (ch : Char) (s : Nat)
    (h : ch ∉ t) : pyFind t ch s = -1 := by
  unfold pyFind
  rw [pyFindAux_eq_none ch _ (fun x hx hxe => h (hxe ▸ List.drop_subset s t hx))]

/-- `rfind` misses a character absent from the string. -/
theorem pyRfind_eq_neg_one (t : List Char) (ch : Char) (a b : Nat)
    (h : ch ∉ t) : pyRfind t ch a b = -1 := by
  unfold pyRfind
  rw [pyFindAux_eq_none ch _ (fun x hx hxe =>
    h (hxe ▸ List.take_subset b t (List.drop_subset a _ (List.mem_reverse.mp hx))))]

/-- A successful `rfind` result is a nonnegative index below the upper
search bound. -/
theorem pyRfind_nonneg_lt (t : List Char) (ch : Char) (a b : Nat)
    (h : pyRfind t ch a b ≠ -1) :
    0 ≤ pyRfind t ch a b ∧ pyRfind t ch a b < (b : Int) := by
  cases hf : pyFindAux ch ((t.take b).drop a).reverse with
  | none =>
    exfalso
    apply h
    unfold pyRfind
    rw [hf]
  | some i =>
    have hval : pyRfind t ch a b =
        ((a + (((t.take b).drop a).length - 1 - i) : Nat) : Int) := by
      unfold pyRfind
      rw [hf]
    have hi : i < ((t.take b).drop a).length := by
      have := pyFindAux_lt ch _ i hf
      rwa [List.length_reverse] at this
    have hlen : ((t.take b).drop a).length ≤ b - a := by
      rw [List.length_drop, List.length_take]
      have := Nat.min_le_left b t.length
      omega
    rw [hval]
    constructor
    · exact Int.natCast_nonneg _
    · exact_mod_cast (by omega :
        a + (((t.take b).drop a).length - 1 - i) < b)

/-- A Python slice is no longer than the index distance. -/
theorem pySlice_length_le (t : List Char) (a b : Nat) :
    (pySlice t a b).length ≤ b - a :=
  List.length_take_le _ _

/-- `rstrip` never lengthens. -/
theorem rstrip_length_le (l : List Char) : (rstrip l).length ≤ l.length := by
  rw [rstrip, List.length_reverse]
  have := (List.dropWhile_sublist (l := l.reverse) isPySpace).length_le
  rwa [List.length_reverse] at this

/-- `rstrip` is the identity on lists without Python whitespace. -/
theorem rstrip_eq_self (l : List Char) (h : ∀ x ∈ l, isPySpace x = false) :
    rstrip l = l := by
  have hd : l.reverse.dropWhile isPySpace = l.reverse := by
    cases hr : l.reverse with
    | nil => simp
    | cons x xs =>
      have hx : x ∈ l := List.mem_reverse.mp (by rw [hr]; simp)
      rw [List.dropWhile_cons, h x hx]
      simp
  rw [rstrip, hd, List.reverse_reverse]

/-- `getD` at an in-range index is a member of the list. -/
theorem getD_mem (l : List Char) (i : Nat) (d : Char) (h : i < l.length) :
    l.getD i d ∈ l := by
  induction l generalizing i with
  | nil => simp at h
  | cons x xs ih =>
    cases i with
    | zero => rw [List.getD_cons_zero]; exact List.mem_cons_self x xs
    | succ j =>
      rw [List.getD_cons_succ]
      exact List.mem_cons_of_mem _ (ih j (by simpa using h))

/-- The wrapped cut never exceeds the raw cut `start + columns`. -/
theorem wrapEnd_le (t : List Char) (c start : Nat) :
    wrapEnd t c start ≤ start + c := by
  rw [wrapEnd]
  by_cases hcond : wrapE2 t c start = -1 ∨ wrapE2 t c start < (start : Int)
  · rw [if_pos hcond]
  · rw [if_neg hcond]
    push_neg at hcond
    obtain ⟨h1, -⟩ := hcond
    rw [wrapE2] at h1 ⊢
    by_cases hch : midChar t c start ≠ ' ' ∧ midChar t c start ≠ '\n'
    · rw [if_pos hch] at h1 ⊢
      have := pyRfind_nonneg_lt t ' ' start (start + c) h1
      omega
    · rw [if_neg hch]
      omega

/-- A `'\n'`-free string has its break at the end of the text. -/
theorem nextBreakAt_no_newline (t : List Char) (s : Nat) (h : '\n' ∉ t) :
    nextBreakAt t s = t.length := by
  rw [nextBreakAt, if_pos (pyFind_eq_neg_one t '\n' s h)]

/-- Every line the loop ever emits is at most `columns` characters long. -/
theorem toLinesLoop_length_le (t : List Char) (c M : Nat) :
    ∀ fuel start cnt acc, (∀ l ∈ acc, l.length ≤ c) →
      ∀ l ∈ (toLinesLoop t c M fuel start cnt acc).1, l.length ≤ c := by
  intro fuel
  induction fuel with
  | zero => intro start cnt acc hacc l hl; exact hacc l hl
  | succ f ih =>
    intro start cnt acc hacc l hl
    rw [toLinesLoop] at hl
    by_cases hg : start < t.length ∧ cnt < M
    · rw [if_pos hg] at hl
      by_cases hb : nextBreakAt t start ≤ start + c
      · rw [if_pos hb] at hl
        refine ih _ _ _ ?_ l hl
        intro x hx
        rcases List.mem_append.mp hx with hx | hx
        · exact hacc x hx
        · simp at hx
          subst hx
          calc (segBreak t start).length
              ≤ (pySlice t start (nextBreakAt t start)).length :=
                rstrip_length_le _
            _ ≤ nextBreakAt t start - start := pySlice_length_le _ _ _
            _ ≤ c := by omega
      · rw [if_neg hb] at hl
        refine ih _ _ _ ?_ l hl
        intro x hx
        rcases List.mem_append.mp hx with hx | hx
        · exact hacc x hx
        · simp at hx
          subst hx
          have hw := wrapEnd_le t c start
          calc (segWrap t c start).length
              ≤ (pySlice t start (wrapEnd t c start)).length :=
                rstrip_length_le _
            _ ≤ wrapEnd t c start - start := pySlice_length_le _ _ _
            _ ≤ c := by omega
    · rw [if_neg hg] at hl
      exact hacc l hl

/-- The loop only ever appends to its accumulator. -/
theorem toLinesLoop_append (t : List Char) (c M : Nat) :
    ∀ fuel start cnt acc, (toLinesLoop t c M fuel start cnt acc).1 =
      acc ++ (toLinesLoop t c M fuel start cnt []).1 := by
  intro fuel
  induction fuel with
  | zero => intro start cnt acc; simp [toLinesLoop]
  | succ f ih =>
    intro start cnt acc
    by_cases hg : start < t.length ∧ cnt < M
    · by_cases hb : nextBreakAt t start ≤ start + c
      · have h1 : toLinesLoop t c M (f + 1) start cnt acc =
            toLinesLoop t c M f (nextBreakAt t start + 1) (cnt + 1)
              (acc ++ [segBreak t start]) := by
          rw [toLinesLoop, if_pos hg, if_pos hb]
        have h2 : toLinesLoop t c M (f + 1) start cnt [] =
            toLinesLoop t c M f (nextBreakAt t start + 1) (cnt + 1)
              ([] ++ [segBreak t start]) := by
          rw [toLinesLoop, if_pos hg, if_pos hb]
        rw [h1, h2,
          ih (nextBreakAt t start + 1) (cnt + 1) (acc ++ [segBreak t start]),
          ih (nextBreakAt t start + 1) (cnt + 1) ([] ++ [segBreak t start])]
        simp
      · have h1 : toLinesLoop t c M (f + 1) start cnt acc =
            toLinesLoop t c M f
              (wrapEnd t c start + jumpSpace t (wrapEnd t c start)) (cnt + 1)
              (acc ++ [segWrap t c start]) := by
          rw [toLinesLoop, if_pos hg, if_neg hb]
        have h2 : toLinesLoop t c M (f + 1) start cnt [] =
            toLinesLoop t c M f
              (wrapEnd t c start + jumpSpace t (wrapEnd t c start)) (cnt + 1)
              ([] ++ [segWrap t c start]) := by
          rw [toLinesLoop, if_pos hg, if_neg hb]
        rw [h1, h2,
          ih _ (cnt + 1) (acc ++ [segWrap t c start]),
          ih _ (cnt + 1) ([] ++ [segWrap t c start])]
        simp
    · have h1 : toLinesLoop t c M (f + 1) start cnt acc = (acc, start, cnt) := by
        rw [toLinesLoop, if_neg hg]
      have h2 : toLinesLoop t c M (f + 1) start cnt [] = ([], start, cnt) := by
        rw [toLinesLoop, if_neg hg]
      rw [h1, h2]
      simp

/-- When the guard holds, one step of the loop emits exactly one line. -/
theorem toLinesLoop_succ (t : List Char) (c M f start cnt : Nat)
    (acc : List (List Char)) (hg : start < t.length ∧ cnt < M) :
    (nextBreakAt t start ≤ start + c ∧
      toLinesLoop t c M (f + 1) start cnt acc =
        toLinesLoop t c M f (nextBreakAt t start + 1) (cnt + 1)
          (acc ++ [segBreak t start])) ∨
    (¬(nextBreakAt t start ≤ start + c) ∧
      toLinesLoop t c M (f + 1) start cnt acc =
        toLinesLoop t c M f
          (wrapEnd t c start + jumpSpace t (wrapEnd t c start)) (cnt + 1)
          (acc ++ [segWrap t c start])) := by
  by_cases hb : nextBreakAt t start ≤ start + c
  · exact Or.inl ⟨hb, by rw [toLinesLoop, if_pos hg, if_pos hb]⟩
  · exact Or.inr ⟨hb, by rw [toLinesLoop, if_pos hg, if_neg hb]⟩

/-- With fuel to spare and the guard true, the loop emits at least one
line. -/
theorem toLinesLoop_ne_nil (t : List Char) (c M f start cnt : Nat)
    (acc : List (List Char)) (hg : start < t.length ∧ cnt < M) :
    (toLinesLoop t c M (f + 1) start cnt acc).1 ≠ [] := by
  rcases toLinesLoop_succ t c M f start cnt acc hg with ⟨-, he⟩ | ⟨-, he⟩ <;>
  · rw [he, toLinesLoop_append]
    simp

/-- Membership in the post-processed line list: a line is either one the
loop emitted or the ellipsis-truncated replacement of the last one. -/
theorem toLinesPost_mem (c M len : Nat) (r : List (List Char) × Nat × Nat)
    (l : List Char) (hl : l ∈ toLinesPost c M len r) :
    l ∈ r.1 ∨ ∃ last, r.1.getLast? = some last ∧
      l = pySliceTo last ((c : Int) - 3) ++ ellipsis := by
  rw [toLinesPost] at hl
  by_cases htr : r.2.2 = M ∧ r.2.1 < len
  · rw [if_pos htr, truncLast] at hl
    cases hg : r.1.getLast? with
    | none => rw [hg] at hl; exact Or.inl hl
    | some last =>
      rw [hg] at hl
      rcases List.mem_append.mp hl with h | h
      · exact Or.inl (List.dropLast_subset _ h)
      · simp at h
        exact Or.inr ⟨last, rfl, h⟩
  · rw [if_neg htr] at hl
    exact Or.inl hl

/-- Post-processing never turns a nonempty line list into an empty one. -/
theorem toLinesPost_ne_nil (c M len : Nat) (r : List (List Char) × Nat × Nat)
    (h : r.1 ≠ []) : toLinesPost c M len r ≠ [] := by
  rw [toLinesPost]
  by_cases htr : r.2.2 = M ∧ r.2.1 < len
  · rw [if_pos htr, truncLast]
    cases hg : r.1.getLast? with
    | none => exact h
    | some last => simp
  · rw [if_neg htr]
    exact h

/-- Post-processing keeps the head of a line list of at least two lines. -/
theorem toLinesPost_head_of_two (c M len : Nat)
    (r : List (List Char) × Nat × Nat) (x y : List Char)
    (rest : List (List Char)) (h : r.1 = x :: y :: rest) :
    (toLinesPost c M len r).head? = some x := by
  rw [toLinesPost]
  by_cases htr : r.2.2 = M ∧ r.2.1 < len
  · rw [if_pos htr, truncLast, h]
    cases hg : (x :: y :: rest).getLast? with
    | none => simp at hg
    | some last => simp [List.dropLast_cons₂]
  · rw [if_neg htr, h]
    rfl

/-- C5: whenever the column budget admits the ellipsis marker
(`columns ≥ 3`, true of every supported screen), every line returned by
`to_lines` is at most `columns` characters long, and on the empty string
`to_lines` returns exactly one empty line. -/
theorem c5 (w fw tl : Nat) (text : List Char) (ml : Option Nat)
    (h3 : 3 ≤ columnsOf w fw) :
    (∀ line ∈ to_lines w fw tl text ml, line.length ≤ columnsOf w fw) ∧
    to_lines w fw tl ([] : List Char) ml = [[]] := by
  constructor
  · intro line hline
    by_cases hq : text.length ≤ columnsOf w fw ∧ '\n' ∉ text
    · rw [to_lines, if_pos hq] at hline
      simp at hline
      subst hline
      exact hq.1
    · rw [to_lines, if_neg hq] at hline
      have hloop := toLinesLoop_length_le text (columnsOf w fw)
        (effMaxLines tl ml) (text.length + 1) 0 0 [] (by simp)
      rcases toLinesPost_mem _ _ _ _ _ hline with h | ⟨last, -, rfl⟩
      · exact hloop _ h
      · have h1 : (pySliceTo last ((columnsOf w fw : Int) - 3)).length ≤
            columnsOf w fw - 3 := by
          rw [pySliceTo, if_pos (by omega : (0 : Int) ≤ (columnsOf w fw : Int) - 3)]
          have he : ((columnsOf w fw : Int) - 3).toNat = columnsOf w fw - 3 := by
            omega
          rw [he]
          exact List.length_take_le _ _
        have h2 : (ellipsis : List Char).length = 3 := rfl
        rw [List.length_append, h2]
        omega
  · rw [to_lines, if_pos ⟨Nat.zero_le _, by simp⟩]

/-- Witness for `c5`: a concrete line of a concrete layout obeys the bound,
and the empty string yields a single empty line, on a 135 px screen with a
27 px font (five columns). -/
theorem c5_witness :
    ("hello".data).length ≤ columnsOf 135 27 ∧
    to_lines 135 27 10 ([] : List Char) none = [[]] :=
  ⟨(c5 135 27 10 ("hello world foo".data) none (by decide)).1 ("hello".data)
      (by decide),
    (c5 135 27 10 ([] : List Char) none (by decide)).2⟩

/-- C10: `max_lines = 0` is falsy, like `None`, so both give the same result
as passing `TOTAL_LINES`, and a caller passing `max_lines = 0` never gets an
empty list (for a positive line capacity). -/
theorem c10 (w fw tl : Nat) (text : List Char) :
    to_lines w fw tl text (some 0) = to_lines w fw tl text none ∧
    to_lines w fw tl text (some 0) = to_lines w fw tl text (some tl) ∧
    (1 ≤ tl → to_lines w fw tl text (some 0) ≠ []) := by
  have hefft : effMaxLines tl (some tl) = tl := by
    cases tl with
    | zero => rfl
    | succ n => rfl
  refine ⟨rfl, ?_, ?_⟩
  · rw [to_lines, to_lines]
    by_cases hq : text.length ≤ columnsOf w fw ∧ '\n' ∉ text
    · rw [if_pos hq, if_pos hq]
    · rw [if_neg hq, if_neg hq]
      have heff0 : effMaxLines tl (some 0) = tl := rfl
      rw [heff0, hefft]
  · intro htl
    by_cases hq : text.length ≤ columnsOf w fw ∧ '\n' ∉ text
    · rw [to_lines, if_pos hq]
      simp
    · rw [to_lines, if_neg hq]
      have htext : text ≠ [] := by
        intro h
        subst h
        exact hq ⟨Nat.zero_le _, by simp⟩
      have hlen : 0 < text.length := List.length_pos.mpr htext
      exact toLinesPost_ne_nil _ _ _ _
        (toLinesLoop_ne_nil text (columnsOf w fw) (effMaxLines tl (some 0))
          text.length 0 0 [] ⟨hlen, htl⟩)

/-- Witness for `c10` on a concrete text and screen. -/
theorem c10_witness :
    to_lines 135 27 10 ("hello world".data) (some 0) =
      to_lines 135 27 10 ("hello world".data) none ∧
    to_lines 135 27 10 ("hello world".data) (some 0) =
      to_lines 135 27 10 ("hello world".data) (some 10) ∧
    to_lines 135 27 10 ("hello world".data) (some 0) ≠ [] :=
  ⟨(c10 135 27 10 ("hello world".data)).1,
    (c10 135 27 10 ("hello world".data)).2.1,
    (c10 135 27 10 ("hello world".data)).2.2 (by decide)⟩

/-- On a whitespace-free text longer than the column budget, one loop step
force-cuts exactly the first `c` characters and continues at index `c`
without skipping anything. -/
theorem toLinesLoop_token_step (t : List Char) (c M f cnt : Nat)
    (acc : List (List Char))
    (hws : ∀ x ∈ t, isPySpace x = false)
    (hlen : c < t.length) (hM : cnt < M) :
    toLinesLoop t c M (f + 1) 0 cnt acc =
      toLinesLoop t c M f c (cnt + 1) (acc ++ [t.take c]) := by
  have hnl : '\n' ∉ t := fun hm => by
    have := hws _ hm
    simp [isPySpace] at this
  have hsp : ' ' ∉ t := fun hm => by
    have := hws _ hm
    simp [isPySpace] at this
  have hnb : nextBreakAt t 0 = t.length := nextBreakAt_no_newline t 0 hnl
  have hmid : midChar t c 0 ∈ t := by
    rw [midChar]
    exact getD_mem t (0 + c) ' ' (by omega)
  have hmidsp := hws _ hmid
  have hmid1 : midChar t c 0 ≠ ' ' := fun he => by
    rw [he] at hmidsp
    simp [isPySpace] at hmidsp
  have hmid2 : midChar t c 0 ≠ '\n' := fun he => by
    rw [he] at hmidsp
    simp [isPySpace] at hmidsp
  have he2 : wrapE2 t c 0 = -1 := by
    rw [wrapE2, if_pos ⟨hmid1, hmid2⟩]
    exact pyRfind_eq_neg_one t ' ' 0 (0 + c) hsp
  have hwe : wrapEnd t c 0 = c := by
    rw [wrapEnd, if_pos (Or.inl he2), Nat.zero_add]
  have hjs : jumpSpace t c = 0 := by
    rw [jumpSpace, if_neg ?_]
    intro he
    apply hmid1
    rw [midChar, Nat.zero_add]
    exact he
  have hseg : segWrap t c 0 = t.take c := by
    rw [segWrap, hwe, pySlice, List.drop_zero, Nat.sub_zero]
    exact rstrip_eq_self _ (fun x hx => hws x (List.take_subset c t hx))
  rw [toLinesLoop, if_pos ⟨by omega, hM⟩, if_neg (by rw [hnb]; omega),
    hwe, hjs, hseg, Nat.add_zero]

/-- C6: on a single whitespace-free token longer than the column budget,
`to_lines` force-cuts the token at exactly `columns` characters — its first
returned line is precisely the token's first `columns` characters — and the
cut consumes no character: the loop resumes at character index `columns`
having emitted exactly that one line. -/
theorem c6 (w fw tl : Nat) (text : List Char)
    (hws : ∀ x ∈ text, isPySpace x = false)
    (hc1 : 1 ≤ columnsOf w fw)
    (hlen : columnsOf w fw < text.length)
    (htl : 2 ≤ tl) :
    (to_lines w fw tl text none).head? =
      some (text.take (columnsOf w fw)) ∧
    ∀ f cnt acc M, cnt < M →
      toLinesLoop text (columnsOf w fw) M (f + 1) 0 cnt acc =
        toLinesLoop text (columnsOf w fw) M f (columnsOf w fw) (cnt + 1)
          (acc ++ [text.take (columnsOf w fw)]) := by
  refine ⟨?_, fun f cnt acc M hM =>
    toLinesLoop_token_step text (columnsOf w fw) M f cnt acc hws hlen hM⟩
  have hq : ¬(text.length ≤ columnsOf w fw ∧ '\n' ∉ text) := fun h =>
    absurd h.1 (by omega)
  have e1 : toLinesLoop text (columnsOf w fw) tl (text.length + 1) 0 0 [] =
      toLinesLoop text (columnsOf w fw) tl text.length (columnsOf w fw) 1
        [text.take (columnsOf w fw)] := by
    have h := toLinesLoop_token_step text (columnsOf w fw) tl text.length 0 []
      hws hlen (by omega)
    simpa using h
  have h2 : ∃ y rest,
      (toLinesLoop text (columnsOf w fw) tl text.length (columnsOf w fw) 1
        [text.take (columnsOf w fw)]).1 =
        text.take (columnsOf w fw) :: y :: rest := by
    obtain ⟨m, hm⟩ : ∃ m, text.length = m + 1 := ⟨text.length - 1, by omega⟩
    rw [hm]
    rcases toLinesLoop_succ text (columnsOf w fw) tl m (columnsOf w fw) 1
        [text.take (columnsOf w fw)] ⟨by omega, by omega⟩ with ⟨-, he⟩ | ⟨-, he⟩
    · refine ⟨segBreak text (columnsOf w fw),
        (toLinesLoop text (columnsOf w fw) tl m
          (nextBreakAt text (columnsOf w fw) + 1) (1 + 1) []).1, ?_⟩
      rw [he, toLinesLoop_append]
      simp
    · refine ⟨segWrap text (columnsOf w fw) (columnsOf w fw),
        (toLinesLoop text (columnsOf w fw) tl m
          (wrapEnd text (columnsOf w fw) (columnsOf w fw) +
            jumpSpace text (wrapEnd text (columnsOf w fw) (columnsOf w fw)))
          (1 + 1) []).1, ?_⟩
      rw [he, toLinesLoop_append]
      simp
  obtain ⟨y, rest, h2⟩ := h2
  rw [to_lines, if_neg hq]
  have hr1 : (toLinesLoop text (columnsOf w fw) (effMaxLines tl none)
      (text.length + 1) 0 0 []).1 =
      text.take (columnsOf w fw) :: y :: rest := by
    show (toLinesLoop text (columnsOf w fw) tl
      (text.length + 1) 0 0 []).1 = _
    rw [e1]
    exact h2
  exact toLinesPost_head_of_two _ _ _ _ _ _ _ hr1

/-- Witness for `c6`: the token `"abcdefghij"` on a five-column screen is
cut to `"abcde"` first, and one loop step from the start emits exactly that
line and resumes at index 5. -/
theorem c6_witness :
    (to_lines 135 27 10 ("abcdefghij".data) none).head? =
      some (("abcdefghij".data).take (columnsOf 135 27)) ∧
    toLinesLoop ("abcdefghij".data) (columnsOf 135 27) 10 3 0 0 [] =
      toLinesLoop ("abcdefghij".data) (columnsOf 135 27) 10 2
        (columnsOf 135 27) 1 ([] ++ [("abcdefghij".data).take (columnsOf 135 27)]) :=
  ⟨(c6 135 27 10 ("abcdefghij".data) (by decide) (by decide) (by decide)
      (by decide)).1,
    (c6 135 27 10 ("abcdefghij".data) (by decide) (by decide) (by decide)
      (by decide)).2 2 0 [] 10 (by decide)⟩

/-- C4 counterexample: for text `"a bcdefghij"` with `columns = 5` and
`max_lines = 1` the loop stops at the line cap with content remaining (the
claim's premise holds: final `line_count = 1 = max_lines` and `start = 2 <
11`), yet the single returned line `"a..."` has length 4, not the length
`columns = 5` that a prefix of exactly `columns − 3` characters followed by
the three-character marker would have. -/
theorem c4_counterexample :
    to_lines 135 27 10 ("a bcdefghij".data) (some 1) = [("a...".data)] ∧
    columnsOf 135 27 = 5 ∧
    (toLinesLoop ("a bcdefghij".data) 5 1 12 0 0 []).2.2 = 1 ∧
    (toLinesLoop ("a bcdefghij".data) 5 1 12 0 0 []).2.1 <
      ("a bcdefghij".data).length ∧
    ("a...".data).length ≠ 5 := by
  refine ⟨rfl, rfl, rfl, by decide, by decide⟩

/-- C4 (amended): whenever `to_lines` stops because `max_lines` lines were
produced while unconsumed content remains, the last returned line is the
first `min(columns − 3, length)` characters of the line it replaces
followed by the fixed marker `"..."` — a prefix of exactly `columns − 3`
characters only when the replaced line is at least that long; the concrete
scenario `"abcdefghij"`, `columns = 5`, `max_lines = 1` → `["ab..."]`
holds as claimed. -/
theorem c4_amended (w fw tl : Nat) (text : List Char) (ml : Option Nat)
    (last : List Char)
    (h3 : 3 ≤ columnsOf w fw)
    (hq : ¬(text.length ≤ columnsOf w fw ∧ '\n' ∉ text))
    (hcnt : (toLinesLoop text (columnsOf w fw) (effMaxLines tl ml)
      (text.length + 1) 0 0 []).2.2 = effMaxLines tl ml)
    (hstart : (toLinesLoop text (columnsOf w fw) (effMaxLines tl ml)
      (text.length + 1) 0 0 []).2.1 < text.length)
    (hlast : (toLinesLoop text (columnsOf w fw) (effMaxLines tl ml)
      (text.length + 1) 0 0 []).1.getLast? = some last) :
    (to_lines w fw tl text ml).getLast? =
      some (last.take (columnsOf w fw - 3) ++ ellipsis) ∧
    to_lines 135 27 10 ("abcdefghij".data) (some 1) = [("ab...".data)] := by
  constructor
  · rw [to_lines, if_neg hq, toLinesPost, if_pos ⟨hcnt, hstart⟩, truncLast,
      hlast]
    have hsl : pySliceTo last ((columnsOf w fw : Int) - 3) =
        last.take (columnsOf w fw - 3) := by
      rw [pySliceTo, if_pos (by omega : (0 : Int) ≤ (columnsOf w fw : Int) - 3)]
      congr 1
      omega
    rw [List.getLast?_concat, hsl]
  · rfl

/-- Witness for `c4_amended` at the concrete run `"a bcdefghij"` with five
columns and one line: the replaced line `"a"` is shorter than
`columns − 3`, so the kept prefix is all of it. -/
theorem c4_witness :
    (to_lines 135 27 10 ("a bcdefghij".data) (some 1)).getLast? =
      some (("a".data).take (columnsOf 135 27 - 3) ++ ellipsis) ∧
    to_lines 135 27 10 ("abcdefghij".data) (some 1) = [("ab...".data)] :=
  c4_amended 135 27 10 ("a bcdefghij".data) (some 1) ("a".data) (by decide)
    (by decide) rfl (by decide) rfl
